import Mathlib

/-!
Verification of the cnc (Conventional Commit Creator) repository.

The JavaScript sources are shallowly embedded as Lean definitions:

* `src/lib/validator.js` (the format rules): `COMMIT_TYPES`,
  `validateCommitType`, `validateScope`, `validateDescription`,
  `buildCommitMessage`.  JavaScript strings are modelled as `String`;
  an optional/absent string field is modelled as `""`, matching the
  JavaScript truthiness test used by the code (for strings only `""`
  is falsy).  `String.prototype.trim` is modelled by `jsTrim`, the
  regular-expression test `/^[a-zA-Z0-9_-]+$/.test` by
  `scopePatternMatch`, `charAt(0).toLowerCase() + slice(1)` by
  `lowerFirst`, and `endsWith('.')` by a check of the last character.
* `validateHeaderLength` is imported from `./validator.js` by
  `src/index.js` and `src/lib/prompts.js` but its definition is not
  among the sources; it is modelled from the spec (see its doc
  comment).
* `src/lib/prompts.js`: the description prompt validators are the pure
  function `descriptionPromptValidate`; `editAiSuggestion` is a pure
  function of the candidate, the flags and the user's answers.
* `src/index.js`: the routing step after AI generation is
  `routeAfterGeneration`.
* `src/lib/commit.js`: `executeCommit` is a function of an explicit
  environment describing the outcomes of the three git subprocesses.
-/

/-- The commit record threaded through the workflow
(`src/lib/validator.js`).  Optional string fields use `""` for the
JavaScript `undefined`/empty cases, matching string truthiness. -/
structure CommitData where
  type : String
  scope : String := ""
  description : String := ""
  isBreaking : Bool := false
  breakingDescription : String := ""
  footer : String := ""
deriving DecidableEq

/-- The fixed ordered set of commit types (`COMMIT_TYPES` in
`src/lib/validator.js`). -/
def COMMIT_TYPES : List String :=
  ["feat", "fix", "docs", "style", "refactor", "perf", "test", "build",
   "ci", "chore", "revert"]

/-- `validateCommitType` from `src/lib/validator.js`. -/
def validateCommitType (type : String) : Bool :=
  COMMIT_TYPES.contains type

/-- Model of `String.prototype.trim` at the character-list level:
drop whitespace from both ends. -/
def trimChars (l : List Char) : List Char :=
  ((l.dropWhile Char.isWhitespace).reverse.dropWhile Char.isWhitespace).reverse

/-- Model of `String.prototype.trim`. -/
def jsTrim (s : String) : String :=
  String.mk (trimChars s.data)

/-- The character class of the scope pattern `[a-zA-Z0-9_-]`. -/
def isScopeChar (c : Char) : Bool :=
  c.isAlpha || c.isDigit || c == '_' || c == '-'

/-- Model of `/^[a-zA-Z0-9_-]+$/.test s`: non-empty and every
character in the class. -/
def scopePatternMatch (s : String) : Bool :=
  !s.data.isEmpty && s.data.all isScopeChar

/-- `validateScope` from `src/lib/validator.js`:
`if (!scope || scope.trim() === '') return true;` then the regular
expression test. -/
def validateScope (scope : String) : Bool :=
  if scope = "" ∨ jsTrim scope = "" then true
  else scopePatternMatch scope

/-- `validateDescription` from `src/lib/validator.js`.  The JavaScript
function returns an error string when invalid and `true` when valid;
this is modelled as `Option String` with `none` for valid. -/
def validateDescription (description : String) : Option String :=
  if description = "" ∨ jsTrim description = "" then
    some "Description is required"
  else if description.data.getLast? = some '.' then
    some "Description should not end with a period"
  else none

/-- `description.charAt(0).toLowerCase() + description.slice(1)` from
`buildCommitMessage`. -/
def lowerFirst (s : String) : String :=
  match s.data with
  | [] => ""
  | c :: rest => String.mk (c.toLower :: rest)

/-- `buildCommitMessage` from `src/lib/validator.js`. -/
def buildCommitMessage (data : CommitData) : String :=
  let message := data.type
  let message := if data.scope = "" then message
    else message ++ "(" ++ data.scope ++ ")"
  let message := if data.isBreaking then message ++ "!" else message
  let message := message ++ ": " ++ lowerFirst data.description
  let message :=
    if data.isBreaking ∧ data.breakingDescription ≠ "" then
      message ++ "\n\nBREAKING CHANGE: " ++ data.breakingDescription
    else message
  if data.footer = "" then message else message ++ "\n\n" ++ data.footer

/-- The breaking-change marker substring. -/
def BREAKING_MARK : String := "BREAKING CHANGE:"

/-- Its character list. -/
def BC : List Char :=
  ['B', 'R', 'E', 'A', 'K', 'I', 'N', 'G', ' ', 'C', 'H', 'A', 'N', 'G', 'E', ':']

/-- `p` is a leading segment of `s`. -/
def isPrefixB : List Char → List Char → Bool
  | [], _ => true
  | _ :: _, [] => false
  | x :: p, y :: s => x == y && isPrefixB p s

/-- Number of positions of `s` at which the pattern `p` occurs. -/
def countOcc (p : List Char) : List Char → Nat
  | [] => 0
  | c :: rest => (if isPrefixB p (c :: rest) then 1 else 0) + countOcc p rest

/-- The character immediately after the first occurrence of `p`, if
`p` occurs at all. -/
def charAfterFirst (p : List Char) : List Char → Option Char
  | [] => none
  | c :: rest =>
    if isPrefixB p (c :: rest) then ((c :: rest).drop p.length).head?
    else charAfterFirst p rest

/-- Characters of the rendered header before the `": "` separator:
type, parenthesised scope when present, `!` when breaking. -/
def preChars (d : CommitData) : List Char :=
  d.type.data
    ++ (if d.scope = "" then [] else '(' :: (d.scope.data ++ [')']))
    ++ (if d.isBreaking then ['!'] else [])

/-- Characters of the breaking-change body, including its leading
blank line, as appended by `buildCommitMessage`. -/
def breakingChars (d : CommitData) : List Char :=
  if d.isBreaking ∧ d.breakingDescription ≠ "" then
    '\n' :: '\n' :: (BC ++ ' ' :: d.breakingDescription.data)
  else []

/-- Characters of the footer section, including its leading blank
line, as appended by `buildCommitMessage`. -/
def footerChars (d : CommitData) : List Char :=
  if d.footer = "" then [] else '\n' :: '\n' :: d.footer.data

/-- The result record of `validateHeaderLength`. -/
structure HeaderLengthResult where
  valid : Bool
  length : Nat
  limit : Nat
deriving DecidableEq

/-- The fixed header length limit. -/
def HEADER_LIMIT : Nat := 72

/-- Modelled from the spec: the rendered header used by
`validateHeaderLength` (the function is imported from `./validator.js`
by `src/index.js` and `src/lib/prompts.js` but its body is not among
the sources): `type(scope)!: description` with the first character of
the description forced lowercase, built exactly as the header part of
`buildCommitMessage`. -/
def commitHeader (d : CommitData) : String :=
  let header := d.type
  let header := if d.scope = "" then header
    else header ++ "(" ++ d.scope ++ ")"
  let header := if d.isBreaking then header ++ "!" else header
  header ++ ": " ++ lowerFirst d.description

/-- Modelled from the spec: `validateHeaderLength`, whose body is
missing from the sources.  Per spec §4.1 it computes the rendered
header, compares its character length against the fixed limit of 72
(valid iff not strictly above the limit), and returns the measured
length and the limit; it never throws (a total function). -/
def validateHeaderLength (d : CommitData) : HeaderLengthResult :=
  { valid := decide ((commitHeader d).length ≤ HEADER_LIMIT),
    length := (commitHeader d).length,
    limit := HEADER_LIMIT }

/-- The blocking error text of the description prompts. -/
def headerTooLongMsg (len limit : Nat) : String :=
  "Header too long (" ++ toString len ++ "/" ++ toString limit ++
    " chars). Make description shorter."

/-- The `validate` callback of the description prompts in
`src/lib/prompts.js` (`runPrompts` with `isBreaking := false`,
`editAiSuggestion` with the current breaking answer): a returned
`some` message makes the clack prompt reject the input and re-ask,
`none` accepts it. -/
def descriptionPromptValidate (type scope : String) (isBreaking : Bool)
    (value : String) : Option String :=
  match validateDescription value with
  | some err => some err
  | none =>
    let headerCheck := validateHeaderLength
      { type := type, scope := scope, description := value,
        isBreaking := isBreaking }
    if headerCheck.valid then none
    else some (headerTooLongMsg headerCheck.length headerCheck.limit)

/-- The CLI flags parsed by `parseFlags` in `src/index.js`. -/
structure Flags where
  publish : Bool := false
  branchInHeader : Bool := false
  noScope : Bool := false
  noAi : Bool := false
deriving DecidableEq

/-- `PUBLISHABLE_TYPES` values from `src/lib/prompts.js`. -/
def publishableTypeValues : List String := ["feat", "fix", "perf"]

/-- Where the workflow goes right after a successful AI generation. -/
inductive NextStage where
  | editForm
  | reviewMenu
deriving DecidableEq

/-- The review menu is the only stage at which the `accept` action is
offered (`reviewAiSuggestion` in `src/lib/prompts.js`). -/
def acceptPossible : NextStage → Bool
  | NextStage.editForm => false
  | NextStage.reviewMenu => true

/-- The post-generation step of `getCommitData` in `src/index.js`
(lines 68–77): apply the no-scope flag to the candidate, then route
into the edit form when the publish flag is set and the candidate's
type is not publishable, and to the review menu otherwise. -/
def routeAfterGeneration (flags : Flags) (commitData : CommitData) :
    CommitData × NextStage :=
  let commitData :=
    if flags.noScope then { commitData with scope := "" } else commitData
  if flags.publish && !(publishableTypeValues.contains commitData.type) then
    (commitData, NextStage.editForm)
  else (commitData, NextStage.reviewMenu)

/-- Environment of `executeCommit` (`src/lib/commit.js`): whether
`git rev-parse --git-dir` succeeds, the output of
`git diff --cached --name-only` (`none` when that command itself
fails), and whether the `git commit` subprocess exits successfully
(a hook may abort it). -/
structure GitEnv where
  inRepo : Bool
  stagedNames : Option String
  commitSucceeds : Bool
deriving DecidableEq

/-- The `{success, error?}` result object of `executeCommit`. -/
structure CommitResult where
  success : Bool
  error : Option String := none
deriving DecidableEq

/-- The not-a-repository error text. -/
def notARepoError : String :=
  "Not a git repository. Please run this command inside a git repository."

/-- The nothing-staged error text. -/
def noStagedError : String :=
  "No changes staged for commit. Use \"git add\" to stage changes first."

/-- The status-check failure text. -/
def statusFailedError : String := "Failed to check git status."

/-- The commit-failed/hook-abort error text. -/
def commitFailedError : String :=
  "Failed to create commit. The commit may have been aborted by a git hook."

/-- `executeCommit` from `src/lib/commit.js` over an explicit git
environment.  Besides the result object it returns whether the
`git commit` subprocess was invoked at all and whether a commit was
actually created (the subprocess succeeded). -/
def executeCommit (env : GitEnv) (message : String) :
    CommitResult × Bool × Bool :=
  if env.inRepo = false then
    ({ success := false, error := some notARepoError }, false, false)
  else
    match env.stagedNames with
    | none => ({ success := false, error := some statusFailedError }, false, false)
    | some status =>
      if jsTrim status = "" then
        ({ success := false, error := some noStagedError }, false, false)
      else if env.commitSucceeds then
        ({ success := true }, true, true)
      else
        ({ success := false, error := some commitFailedError }, true, false)

/-- The answers a user can give to the edit form of
`editAiSuggestion` (`src/lib/prompts.js`).  The form asks for the
publish intent, the type, the scope, the description, the breaking
flag and the breaking description; it has no footer question. -/
structure EditAnswers where
  willPublish : Bool := false
  type : String := "feat"
  scope : String := ""
  description : String := ""
  isBreaking : Bool := false
  breakingDescription : String := ""
deriving DecidableEq

/-- `editAiSuggestion` from `src/lib/prompts.js` as a pure function of
the candidate record, the flags and the user's answers: the prompt
group collects the edited fields (the scope prompt is skipped and
cleared under the no-scope flag, the breaking description is asked
only when breaking), and the returned record copies the candidate's
footer unchanged (`edited.footer = commitData.footer`). -/
def editAiSuggestion (commitData : CommitData) (flags : Flags)
    (answers : EditAnswers) : CommitData :=
  { type := answers.type,
    scope := if flags.noScope then "" else answers.scope,
    description := answers.description,
    isBreaking := answers.isBreaking,
    breakingDescription :=
      if answers.isBreaking then answers.breakingDescription else "",
    footer := commitData.footer }

/-- C1: `buildCommitMessage` on the Scenario 1 record renders exactly
the canonical text with the breaking-change body and the footer. -/
theorem buildCommitMessage_scenario1 :
    buildCommitMessage
      { type := "feat", scope := "parser",
        description := "add ability to parse arrays", isBreaking := true,
        breakingDescription := "arrays are now parsed differently",
        footer := "Refs #ABC-123" } =
      "feat(parser)!: add ability to parse arrays\n\nBREAKING CHANGE: arrays are now parsed differently\n\nRefs #ABC-123" := by
  decide

/-- Normal form of the rendered message at the character level. -/
lemma buildCommitMessage_data (d : CommitData) :
    (buildCommitMessage d).data =
      preChars d ++ ':' :: ' ' ::
        ((lowerFirst d.description).data ++ breakingChars d ++ footerChars d) := by
  unfold buildCommitMessage preChars breakingChars footerChars
  split_ifs <;>
    simp_all [String.data_append, BC, List.append_assoc]

lemma mem_of_isPrefixB {c : Char} :
    ∀ {p s : List Char}, isPrefixB p s = true → c ∈ p → c ∈ s := by
  intro p
  induction p with
  | nil =>
    intro s h hc
    simp at hc
  | cons x p ih =>
    intro s h hc
    cases s with
    | nil => simp [isPrefixB] at h
    | cons y t =>
      simp only [isPrefixB, Bool.and_eq_true, beq_iff_eq] at h
      rcases List.mem_cons.mp hc with rfl | hc2
      · rw [h.1]
        exact List.mem_cons_self _ _
      · exact List.mem_cons_of_mem _ (ih h.2 hc2)

lemma isPrefixB_take :
    ∀ {p s : List Char}, isPrefixB p s = true → p = s.take p.length := by
  intro p
  induction p with
  | nil =>
    intro s h
    rfl
  | cons x p ih =>
    intro s h
    cases s with
    | nil => simp [isPrefixB] at h
    | cons y t =>
      simp only [isPrefixB, Bool.and_eq_true, beq_iff_eq] at h
      rw [List.length_cons, List.take_succ_cons, ← h.1, ← ih h.2]

lemma isPrefixB_append_cases :
    ∀ {p : List Char} (a : List Char) {s : List Char},
      isPrefixB p (a ++ s) = true →
      isPrefixB p a = true ∨
        (isPrefixB a p = true ∧ isPrefixB (p.drop a.length) s = true) := by
  intro p a
  induction a generalizing p with
  | nil =>
    intro s h
    right
    exact ⟨rfl, by simpa using h⟩
  | cons y a ih =>
    intro s h
    cases p with
    | nil =>
      left
      rfl
    | cons x p =>
      rw [List.cons_append] at h
      simp only [isPrefixB, Bool.and_eq_true, beq_iff_eq] at h
      rcases ih h.2 with h1 | ⟨h2, h3⟩
      · left
        simp [isPrefixB, h.1, h1]
      · right
        refine ⟨by simp [isPrefixB, h.1.symm, h2], ?_⟩
        simpa using h3

lemma isPrefixB_sep_left {c : Char} :
    ∀ {p : List Char} (a b : List Char), c ∉ p →
      isPrefixB p (a ++ c :: b) = isPrefixB p a := by
  intro p a
  induction a generalizing p with
  | nil =>
    intro b hc
    cases p with
    | nil => rfl
    | cons x p =>
      have hx : x ≠ c := fun hh => hc (hh ▸ List.mem_cons_self _ _)
      simp [isPrefixB, hx]
  | cons y a ih =>
    intro b hc
    cases p with
    | nil => rfl
    | cons x p =>
      have hc2 : c ∉ p := fun hh => hc (List.mem_cons_of_mem _ hh)
      simp [isPrefixB, ih b hc2]

lemma countOcc_sep_split {p : List Char} {c : Char} (hc : c ∉ p) (hp : p ≠ []) :
    ∀ (a b : List Char), countOcc p (a ++ c :: b) = countOcc p a + countOcc p b := by
  intro a
  induction a with
  | nil =>
    intro b
    have hfalse : isPrefixB p (c :: b) = false := by
      cases p with
      | nil => exact absurd rfl hp
      | cons x p =>
        have hx : x ≠ c := fun hh => hc (hh ▸ List.mem_cons_self _ _)
        simp [isPrefixB, hx]
    simp [countOcc, hfalse]
  | cons y a ih =>
    intro b
    have hind : isPrefixB p (y :: (a ++ c :: b)) = isPrefixB p (y :: a) := by
      rw [← List.cons_append]
      exact isPrefixB_sep_left (y :: a) b hc
    rw [List.cons_append]
    rw [show countOcc p (y :: (a ++ c :: b)) =
          (if isPrefixB p (y :: (a ++ c :: b)) then 1 else 0) +
            countOcc p (a ++ c :: b) from rfl]
    rw [hind, ih]
    rw [show countOcc p (y :: a) =
          (if isPrefixB p (y :: a) then 1 else 0) + countOcc p a from rfl]
    omega

lemma noPrefix_BC_sep (a b : List Char) (h1 : ':' ∉ a) (h2 : ' ' ∉ a) :
    isPrefixB BC (a ++ ':' :: ' ' :: b) = false := by
  rw [Bool.eq_false_iff]
  intro hpre
  rcases isPrefixB_append_cases a hpre with hca | ⟨hap, hdrop⟩
  · exact h1 (mem_of_isPrefixB hca (by decide))
  · have hlen : a = BC.take a.length := isPrefixB_take hap
    by_cases hk : a.length < 16
    · have hhead : (BC.drop a.length).head? = some ':' := by
        rcases hd : BC.drop a.length with _ | ⟨c, t⟩
        · exfalso
          have hle : BC.length ≤ a.length := List.drop_eq_nil_iff.mp hd
          simp [BC] at hle
          omega
        · rw [hd] at hdrop
          simp only [isPrefixB, Bool.and_eq_true, beq_iff_eq] at hdrop
          rw [hdrop.1]
          rfl
      have hball : ∀ k < 16, (BC.drop k).head? = some ':' → k = 15 := by decide
      have h15 : a.length = 15 := hball _ hk hhead
      apply h2
      rw [hlen, h15]
      decide
    · apply h2
      have ha : a = BC := by
        rw [hlen]
        nth_rewrite 2 [show BC = BC.take a.length from
          (List.take_of_length_le (by simp [BC]; omega)).symm]
        rfl
      rw [ha]
      decide

lemma countOcc_colon_sep :
    ∀ (a b : List Char), ':' ∉ a → ' ' ∉ a →
      countOcc BC (a ++ ':' :: ' ' :: b) = countOcc BC b := by
  intro a
  induction a with
  | nil =>
    intro b _ _
    simp [countOcc, isPrefixB, BC]
  | cons y a ih =>
    intro b h1 h2
    have hy1 : ':' ∉ a := fun hh => h1 (List.mem_cons_of_mem _ hh)
    have hy2 : ' ' ∉ a := fun hh => h2 (List.mem_cons_of_mem _ hh)
    have hind : isPrefixB BC ((y :: a) ++ ':' :: ' ' :: b) = false :=
      noPrefix_BC_sep (y :: a) b h1 h2
    rw [List.cons_append] at hind ⊢
    rw [show countOcc BC (y :: (a ++ ':' :: ' ' :: b)) =
          (if isPrefixB BC (y :: (a ++ ':' :: ' ' :: b)) then 1 else 0) +
            countOcc BC (a ++ ':' :: ' ' :: b) from rfl]
    rw [hind, ih b hy1 hy2]
    simp

lemma countOcc_BC_marker (t : List Char) :
    countOcc BC (BC ++ ' ' :: t) = 1 + countOcc BC t := by
  simp [BC, countOcc, isPrefixB]

lemma charAfterFirst_colon_sep :
    ∀ (a b : List Char), ':' ∉ a →
      charAfterFirst [':', ' '] (a ++ ':' :: ' ' :: b) = b.head? := by
  intro a
  induction a with
  | nil =>
    intro b _
    simp [charAfterFirst, isPrefixB]
  | cons y a ih =>
    intro b h
    have hy : ':' ≠ y := fun hh => h (hh ▸ List.mem_cons_self _ _)
    have ha : ':' ∉ a := fun hh => h (List.mem_cons_of_mem _ hh)
    rw [List.cons_append]
    rw [show charAfterFirst [':', ' '] (y :: (a ++ ':' :: ' ' :: b)) =
          if isPrefixB [':', ' '] (y :: (a ++ ':' :: ' ' :: b)) then
            ((y :: (a ++ ':' :: ' ' :: b)).drop 2).head?
          else charAfterFirst [':', ' '] (a ++ ':' :: ' ' :: b) from rfl]
    have hfalse : isPrefixB [':', ' '] (y :: (a ++ ':' :: ' ' :: b)) = false := by
      simp [isPrefixB, hy]
    rw [hfalse]
    simpa using ih b ha

lemma countOcc_BC_cons_ne (c : Char) (b : List Char) (hc : c ≠ 'B') :
    countOcc BC (c :: b) = countOcc BC b := by
  have hfalse : isPrefixB BC (c :: b) = false := by
    simp [BC, isPrefixB, Ne.symm hc]
  rw [show countOcc BC (c :: b) =
        (if isPrefixB BC (c :: b) then 1 else 0) + countOcc BC b from rfl, hfalse]
  simp

lemma charToNat_ofNat (n : Nat) (hv : n.isValidChar) : (Char.ofNat n).toNat = n := by
  simp [Char.ofNat, hv, Char.ofNatAux, Char.toNat, UInt32.toNat, BitVec.toNat_ofNatLt]

lemma char_isUpper_iff (c : Char) : c.isUpper = true ↔ (65 ≤ c.toNat ∧ c.toNat ≤ 90) := by
  show (decide (c.val ≥ 65) && decide (c.val ≤ 90)) = true ↔ _
  rw [Bool.and_eq_true, decide_eq_true_iff, decide_eq_true_iff]
  exact Iff.rfl

lemma char_toLower_isUpper (c : Char) : (Char.toLower c).isUpper = false := by
  by_cases h : c.toNat ≥ 65 ∧ c.toNat ≤ 90
  · have hv : (c.toNat + 32).isValidChar := Or.inl (by omega)
    have hlow : Char.toLower c = Char.ofNat (c.toNat + 32) := by
      simp [Char.toLower, h]
    rw [hlow, Bool.eq_false_iff]
    intro hup
    have h2 := (char_isUpper_iff _).mp hup
    rw [charToNat_ofNat _ hv] at h2
    omega
  · have hlow : Char.toLower c = c := by
      simp only [Char.toLower]
      rw [if_neg h]
    rw [hlow, Bool.eq_false_iff]
    intro hup
    exact h ((char_isUpper_iff _).mp hup)

lemma commitType_scopeChars :
    ∀ t ∈ COMMIT_TYPES, ∀ c ∈ t.data, isScopeChar c = true := by
  decide

lemma mem_preChars (d : CommitData) {c : Char} (hmem : c ∈ preChars d) :
    c ∈ d.type.data ∨ c ∈ d.scope.data ∨ c = '(' ∨ c = ')' ∨ c = '!' := by
  unfold preChars at hmem
  rcases List.mem_append.mp hmem with h12 | h3
  · rcases List.mem_append.mp h12 with h1 | h2
    · exact Or.inl h1
    · right
      by_cases hs : d.scope = ""
      · rw [if_pos hs] at h2
        simp at h2
      · rw [if_neg hs] at h2
        rcases List.mem_cons.mp h2 with rfl | h2b
        · right
          left
          rfl
        · rcases List.mem_append.mp h2b with h2c | h2d
          · exact Or.inl h2c
          · simp at h2d
            right
            right
            left
            exact h2d
  · by_cases hb : d.isBreaking = true
    · rw [if_pos hb] at h3
      simp at h3
      right; right; right; right
      exact h3
    · rw [if_neg hb] at h3
      simp at h3

lemma colon_not_mem_preChars (d : CommitData) (hty : d.type ∈ COMMIT_TYPES)
    (hsc : ∀ c ∈ d.scope.data, isScopeChar c = true) : ':' ∉ preChars d := by
  intro hmem
  rcases mem_preChars d hmem with h | h | h | h | h
  · exact absurd (commitType_scopeChars d.type hty ':' h) (by decide)
  · exact absurd (hsc ':' h) (by decide)
  · exact absurd h (by decide)
  · exact absurd h (by decide)
  · exact absurd h (by decide)

lemma space_not_mem_preChars (d : CommitData) (hty : d.type ∈ COMMIT_TYPES)
    (hsc : ∀ c ∈ d.scope.data, isScopeChar c = true) : ' ' ∉ preChars d := by
  intro hmem
  rcases mem_preChars d hmem with h | h | h | h | h
  · exact absurd (commitType_scopeChars d.type hty ' ' h) (by decide)
  · exact absurd (hsc ' ' h) (by decide)
  · exact absurd h (by decide)
  · exact absurd h (by decide)
  · exact absurd h (by decide)

/-- C2 (counterexample): for the description `"123"` the rendered
message is `"feat: 123"` and the character immediately after the
first `": "` is `'1'`, which is not a lowercase letter, so the
rendered character after `": "` is not always lowercase. -/
theorem buildCommitMessage_digit_first_not_lower :
    charAfterFirst [':', ' ']
        (buildCommitMessage { type := "feat", description := "123" }).data
      = some '1' ∧ '1'.isLower = false := by
  decide

/-- C2 (amended): `buildCommitMessage` is deterministic, and for a
commit type from the fixed set, a scope made of scope-class
characters and a non-empty description, the character of the rendered
message immediately after the first `": "` is the lowercase-mapped
first character of the description; in particular it is never an
uppercase letter (it need not be a lowercase letter, e.g. digits). -/
theorem buildCommitMessage_rendered_first_char (d : CommitData)
    (hty : d.type ∈ COMMIT_TYPES)
    (hsc : ∀ c ∈ d.scope.data, isScopeChar c = true)
    (hd : d.description ≠ "") :
    (∀ d2 : CommitData, d2 = d → buildCommitMessage d2 = buildCommitMessage d) ∧
    ∃ c0, d.description.data.head? = some c0 ∧
      charAfterFirst [':', ' '] (buildCommitMessage d).data = some c0.toLower ∧
      (c0.toLower).isUpper = false := by
  refine ⟨fun d2 h => by rw [h], ?_⟩
  obtain ⟨c0, rest, hdesc⟩ : ∃ c0 rest, d.description.data = c0 :: rest := by
    cases hx : d.description.data with
    | nil => exact absurd (String.ext hx) hd
    | cons c r => exact ⟨c, r, rfl⟩
  refine ⟨c0, by rw [hdesc]; rfl, ?_, char_toLower_isUpper c0⟩
  rw [buildCommitMessage_data]
  rw [charAfterFirst_colon_sep _ _ (colon_not_mem_preChars d hty hsc)]
  have hlf : (lowerFirst d.description).data = c0.toLower :: rest := by
    simp [lowerFirst, hdesc]
  simp [hlf]

/-- C2 (witness): the amended statement applied to a record whose
description starts with an uppercase letter. -/
theorem buildCommitMessage_rendered_first_char_witness :
    ∃ c0, ("Add stuff" : String).data.head? = some c0 ∧
      charAfterFirst [':', ' ']
          (buildCommitMessage { type := "feat", description := "Add stuff" }).data
        = some c0.toLower ∧
      (c0.toLower).isUpper = false :=
  (buildCommitMessage_rendered_first_char
      { type := "feat", description := "Add stuff" }
      (by decide) (by decide) (by decide)).2

/-- C3 (counterexample): with `isBreaking = false` but a footer that
itself contains `BREAKING CHANGE:`, the rendered message contains the
substring, so the claim fails without a precondition on the footer. -/
theorem buildCommitMessage_breaking_mark_in_footer :
    countOcc BC
        (buildCommitMessage
          { type := "chore", description := "tidy", isBreaking := false,
            footer := "BREAKING CHANGE: none" }).data ≠ 0 := by
  decide

/-- C3 (amended): for a commit type from the fixed set, a scope of
scope-class characters, and rendered description and footer that do
not contain `BREAKING CHANGE:`: a non-breaking record renders with no
occurrence of the marker, and a breaking record with a non-empty
breaking description that does not contain the marker renders with
exactly one occurrence. -/
theorem buildCommitMessage_breaking_mark_count (d : CommitData)
    (hty : d.type ∈ COMMIT_TYPES)
    (hsc : ∀ c ∈ d.scope.data, isScopeChar c = true)
    (hdesc : countOcc BC (lowerFirst d.description).data = 0)
    (hfoot : countOcc BC d.footer.data = 0) :
    (d.isBreaking = false → countOcc BC (buildCommitMessage d).data = 0) ∧
    (d.isBreaking = true → d.breakingDescription ≠ "" →
      countOcc BC d.breakingDescription.data = 0 →
      countOcc BC (buildCommitMessage d).data = 1) := by
  have hcolon := colon_not_mem_preChars d hty hsc
  have hspace := space_not_mem_preChars d hty hsc
  constructor
  · intro hb
    rw [buildCommitMessage_data, countOcc_colon_sep _ _ hcolon hspace]
    have hbr : breakingChars d = [] := by
      simp [breakingChars, hb]
    rw [hbr, List.append_nil]
    by_cases hf : d.footer = ""
    · rw [show footerChars d = [] from by simp [footerChars, hf], List.append_nil]
      exact hdesc
    · rw [show footerChars d = '\n' :: '\n' :: d.footer.data from by
        simp [footerChars, hf]]
      rw [countOcc_sep_split (show '\n' ∉ BC by decide) (show BC ≠ [] by decide)]
      rw [countOcc_BC_cons_ne '\n' _ (by decide), hdesc, hfoot]
  · intro hb hbd hbdcount
    rw [buildCommitMessage_data, countOcc_colon_sep _ _ hcolon hspace]
    have hbr : breakingChars d =
        '\n' :: '\n' :: (BC ++ ' ' :: d.breakingDescription.data) := by
      simp [breakingChars, hb, hbd]
    rw [hbr, List.append_assoc]
    rw [show ('\n' :: '\n' :: (BC ++ ' ' :: d.breakingDescription.data)) ++ footerChars d =
          '\n' :: '\n' :: (BC ++ ' ' :: (d.breakingDescription.data ++ footerChars d)) from by
      simp [List.append_assoc]]
    rw [countOcc_sep_split (show '\n' ∉ BC by decide) (show BC ≠ [] by decide)]
    rw [countOcc_BC_cons_ne '\n' _ (by decide)]
    rw [countOcc_BC_marker]
    by_cases hf : d.footer = ""
    · rw [show footerChars d = [] from by simp [footerChars, hf], List.append_nil]
      rw [hdesc, hbdcount]
    · rw [show footerChars d = '\n' :: '\n' :: d.footer.data from by
        simp [footerChars, hf]]
      rw [countOcc_sep_split (show '\n' ∉ BC by decide) (show BC ≠ [] by decide)]
      rw [countOcc_BC_cons_ne '\n' _ (by decide), hdesc, hbdcount, hfoot]

/-- C3 (witness): the amended statement applied to the Scenario 1
record, whose message contains the marker exactly once. -/
theorem buildCommitMessage_breaking_mark_count_witness :
    countOcc BC
        (buildCommitMessage
          { type := "feat", scope := "parser",
            description := "add ability to parse arrays", isBreaking := true,
            breakingDescription := "arrays are now parsed differently",
            footer := "Refs #ABC-123" }).data = 1 :=
  (buildCommitMessage_breaking_mark_count
      { type := "feat", scope := "parser",
        description := "add ability to parse arrays", isBreaking := true,
        breakingDescription := "arrays are now parsed differently",
        footer := "Refs #ABC-123" }
      (by decide) (by decide) (by decide) (by decide)).2 rfl (by decide) (by decide)

/-- C4: `validateDescription` fails with the empty reason on blank
input, then with the trailing-period reason when the last character is
`'.'`, and accepts otherwise; emptiness is checked first, and the four
concrete scenarios behave as stated. -/
theorem validateDescription_spec (s : String) :
    (jsTrim s = "" → validateDescription s = some "Description is required") ∧
    (jsTrim s ≠ "" → s.data.getLast? = some '.' →
      validateDescription s = some "Description should not end with a period") ∧
    (jsTrim s ≠ "" → s.data.getLast? ≠ some '.' → validateDescription s = none) ∧
    validateDescription "Fix bug." = some "Description should not end with a period" ∧
    validateDescription "" = some "Description is required" ∧
    validateDescription "." = some "Description should not end with a period" ∧
    validateDescription "fix bug" = none := by
  refine ⟨?_, ?_, ?_, by decide, by decide, by decide, by decide⟩
  · intro h
    unfold validateDescription
    rw [if_pos (Or.inr h)]
  · intro h hlast
    unfold validateDescription
    rw [if_neg, if_pos hlast]
    rintro (rfl | h2)
    · exact h rfl
    · exact h h2
  · intro h hlast
    unfold validateDescription
    rw [if_neg, if_neg hlast]
    rintro (rfl | h2)
    · exact h rfl
    · exact h h2

/-- C4 (witness): the blank-description case of the specification at a
whitespace-only input. -/
theorem validateDescription_spec_witness :
    validateDescription "  " = some "Description is required" :=
  (validateDescription_spec "  ").1 (by decide)

/-- C5 (counterexample): the whitespace-only scope `" "` contains a
character outside the scope class, yet `validateScope` accepts it
(blank scopes are treated as absent), so the claim fails. -/
theorem validateScope_blank_string_valid :
    validateScope " " = true ∧ ' ' ∈ (" " : String).data ∧ isScopeChar ' ' = false := by
  decide

/-- C5 (amended): every string matching the scope pattern is accepted;
every string that is not blank (empty or whitespace-only) and contains
a character outside the class is rejected; blank scopes are accepted
as absent. -/
theorem validateScope_spec (s : String) :
    (scopePatternMatch s = true → validateScope s = true) ∧
    (jsTrim s ≠ "" → (∃ c ∈ s.data, isScopeChar c = false) → validateScope s = false) ∧
    (jsTrim s = "" → validateScope s = true) := by
  refine ⟨?_, ?_, ?_⟩
  · intro h
    unfold validateScope
    split_ifs with hcond
    · rfl
    · exact h
  · rintro hne ⟨c, hc, hbad⟩
    unfold validateScope
    rw [if_neg]
    · have hall : s.data.all isScopeChar = false := by
        rw [List.all_eq_false]
        exact ⟨c, hc, by simp [hbad]⟩
      simp [scopePatternMatch, hall]
    · rintro (rfl | h2)
      · exact hne rfl
      · exact hne h2
  · intro h
    unfold validateScope
    rw [if_pos (Or.inr h)]

/-- C5 (witness): the amended statement applied to a pattern-matching
scope, a non-blank out-of-class scope, and a blank scope. -/
theorem validateScope_spec_witness :
    validateScope "parser" = true ∧ validateScope "my scope" = false ∧
      validateScope "   " = true :=
  ⟨(validateScope_spec "parser").1 (by decide),
   (validateScope_spec "my scope").2.1 (by decide) ⟨' ', by decide, by decide⟩,
   (validateScope_spec "   ").2.2 (by decide)⟩

/-- Character-level normal form of the modelled header. -/
lemma commitHeader_data (d : CommitData) :
    (commitHeader d).data =
      preChars d ++ ':' :: ' ' :: (lowerFirst d.description).data := by
  unfold commitHeader preChars
  split_ifs <;>
    simp_all [String.data_append, List.append_assoc]

/-- C6: `validateHeaderLength` is invalid exactly when the header
length strictly exceeds 72, reports that limit, and its `length` field
is the exact character count of the header prefix of the message
`buildCommitMessage` renders (the body and footer are ignored); being
a total function it never throws. -/
theorem validateHeaderLength_spec (d : CommitData) :
    ((validateHeaderLength d).valid = false ↔ 72 < (validateHeaderLength d).length) ∧
    (validateHeaderLength d).length = (commitHeader d).length ∧
    (validateHeaderLength d).limit = 72 ∧
    ∃ rest, (buildCommitMessage d).data = (commitHeader d).data ++ rest := by
  refine ⟨?_, rfl, rfl, ?_⟩
  · simp only [validateHeaderLength, HEADER_LIMIT, decide_eq_false_iff_not, Nat.not_le]
  · refine ⟨breakingChars d ++ footerChars d, ?_⟩
    rw [buildCommitMessage_data, commitHeader_data]
    simp [List.append_assoc]

/-- C7 (counterexample): an 80-character description is a valid
description whose header exceeds the limit, and the description
prompt does not accept it (the validator returns an error, which
blocks the prompt), so the prompts do not accept over-limit
descriptions. -/
theorem descriptionPrompt_rejects_long_header :
    descriptionPromptValidate "feat" "" false (String.mk (List.replicate 80 'a')) ≠
        none ∧
      72 < (validateHeaderLength
        { type := "feat", scope := "",
          description := String.mk (List.replicate 80 'a') }).length := by
  decide

/-- C7 (amended): header-length violations are warnings at the
AI-review and final-confirmation stages, but the manual-flow and
edit-form description prompts block: whenever the description itself
is valid and the resulting header is over the limit, the prompt
validator returns the header-too-long error instead of accepting. -/
theorem descriptionPrompt_blocks_on_long_header
    (type scope : String) (isBreaking : Bool) (value : String)
    (hvalid : validateDescription value = none)
    (hlong : (validateHeaderLength
      { type := type, scope := scope, description := value,
        isBreaking := isBreaking }).valid = false) :
    descriptionPromptValidate type scope isBreaking value =
      some (headerTooLongMsg
        (validateHeaderLength
          { type := type, scope := scope, description := value,
            isBreaking := isBreaking }).length
        (validateHeaderLength
          { type := type, scope := scope, description := value,
            isBreaking := isBreaking }).limit) := by
  unfold descriptionPromptValidate
  rw [hvalid]
  simp [hlong]

/-- C7 (witness): the amended statement applied to the 80-character
description. -/
theorem descriptionPrompt_blocks_on_long_header_witness :
    descriptionPromptValidate "feat" "" false (String.mk (List.replicate 80 'a')) =
      some (headerTooLongMsg 86 72) :=
  (descriptionPrompt_blocks_on_long_header "feat" "" false
      (String.mk (List.replicate 80 'a')) (by decide) (by decide)).trans (by decide)

/-- C8: with publish mode active and a candidate whose type is not
publishable, the workflow transitions into the edit form, where no
accept action exists, before any accept confirmation is possible. -/
theorem publish_flag_routes_to_edit (flags : Flags) (cd : CommitData)
    (hp : flags.publish = true)
    (ht : publishableTypeValues.contains cd.type = false) :
    (routeAfterGeneration flags cd).2 = NextStage.editForm ∧
    acceptPossible (routeAfterGeneration flags cd).2 = false := by
  have ht2 : cd.type ∉ publishableTypeValues := by
    simpa using ht
  have hroute : (routeAfterGeneration flags cd).2 = NextStage.editForm := by
    unfold routeAfterGeneration
    by_cases hns : flags.noScope = true
    · simp [hns, hp, ht2]
    · simp at hns
      simp [hns, hp, ht2]
  exact ⟨hroute, by rw [hroute]; rfl⟩

/-- C8 (witness): a publish-mode run with an AI candidate of type
`docs` (Scenario 3) routes to the edit form. -/
theorem publish_flag_routes_to_edit_witness :
    (routeAfterGeneration { publish := true }
        { type := "docs", description := "update readme" }).2 = NextStage.editForm ∧
    acceptPossible
        (routeAfterGeneration { publish := true }
          { type := "docs", description := "update readme" }).2 = false :=
  publish_flag_routes_to_edit { publish := true }
    { type := "docs", description := "update readme" } rfl (by decide)

/-- C9: `executeCommit` reports three pairwise-distinct error texts
for the not-a-repository, nothing-staged and hook-abort failures, no
commit is created in any failure case, and success is reported exactly
when the repository check, the staged check and the commit subprocess
itself all succeed.  (The `message` argument only feeds the commit
command line.) -/
theorem executeCommit_spec (env : GitEnv) (message : String) :
    (env.inRepo = false →
      executeCommit env message =
        ({ success := false, error := some notARepoError }, false, false)) ∧
    (env.inRepo = true → ∀ status, env.stagedNames = some status →
      jsTrim status = "" →
      executeCommit env message =
        ({ success := false, error := some noStagedError }, false, false)) ∧
    (env.inRepo = true → ∀ status, env.stagedNames = some status →
      jsTrim status ≠ "" → env.commitSucceeds = false →
      executeCommit env message =
        ({ success := false, error := some commitFailedError }, true, false)) ∧
    (notARepoError ≠ noStagedError ∧ notARepoError ≠ commitFailedError ∧
      noStagedError ≠ commitFailedError) ∧
    ((executeCommit env message).1.success = true ↔
      (env.inRepo = true ∧
        (∃ status, env.stagedNames = some status ∧ jsTrim status ≠ "") ∧
        env.commitSucceeds = true)) ∧
    ((executeCommit env message).1.success = false →
      (executeCommit env message).2.2 = false) := by
  refine ⟨?_, ?_, ?_, by decide, ?_, ?_⟩
  · intro h
    simp [executeCommit, h]
  · intro h status hst htrim
    simp [executeCommit, h, hst, htrim]
  · intro h status hst htrim hcs
    simp [executeCommit, h, hst, htrim, hcs]
  · cases hrepo : env.inRepo
    · simp [executeCommit, hrepo]
    · cases hst : env.stagedNames with
      | none => simp [executeCommit, hrepo, hst]
      | some status =>
        by_cases htrim : jsTrim status = ""
        · simp [executeCommit, hrepo, hst, htrim]
        · cases hcs : env.commitSucceeds
          · simp [executeCommit, hrepo, hst, htrim, hcs]
          · simp [executeCommit, hrepo, hst, htrim, hcs]
  · intro h
    cases hrepo : env.inRepo
    · simp [executeCommit, hrepo]
    · cases hst : env.stagedNames with
      | none => simp [executeCommit, hrepo, hst]
      | some status =>
        by_cases htrim : jsTrim status = ""
        · simp [executeCommit, hrepo, hst, htrim]
        · cases hcs : env.commitSucceeds
          · simp [executeCommit, hrepo, hst, htrim, hcs]
          · simp [executeCommit, hrepo, hst, htrim, hcs] at h

/-- C9 (witness): the not-a-repository case at a concrete
environment. -/
theorem executeCommit_spec_witness :
    executeCommit { inRepo := false, stagedNames := none, commitSucceeds := false }
        "feat: add parser" =
      ({ success := false, error := some notARepoError }, false, false) :=
  (executeCommit_spec
      { inRepo := false, stagedNames := none, commitSucceeds := false }
      "feat: add parser").1 rfl

/-- C10: for every candidate, every flag set and every sequence of
user answers, the record returned by the edit form has the footer of
the input candidate: the form never prompts for the footer and never
changes it. -/
theorem editAiSuggestion_preserves_footer (commitData : CommitData)
    (flags : Flags) (answers : EditAnswers) :
    (editAiSuggestion commitData flags answers).footer = commitData.footer := rfl
